import Mathlib

set_option maxHeartbeats 1000000

namespace Flowchart

/-!
Shallow embedding of `flowchart.py`: negation normalization, OR-group
factoring, DNF conversion and decision-graph synthesis.

Python dicts are modelled as insertion-ordered association lists
(`List (k × v)` with an update-or-append operation `setA`), Python sets as
insertion-ordered duplicate-free lists (`insertS` / `insertE`); set *content*
is faithful, while the renderers that iterate over sets are additionally
parameterized by the enumeration order where that order is observable
(CPython iterates sets in hash order, which varies between processes).
Python string operations used by the source (`split`, `in`, `replace`,
`join`) are defined below over `String.data` character lists so that every
definition evaluates inside the kernel.
-/

/-- `s.split(sep)` worker over character lists; consumes at least one input
character per step, fuel is the length of the remaining input plus one. -/
def splitGo (sep : List Char) : Nat → List Char → List Char → List (List Char)
  | 0, acc, cs => [acc.reverse ++ cs]
  | fuel + 1, acc, cs =>
    if sep.isPrefixOf cs then
      acc.reverse :: splitGo sep fuel [] (cs.drop sep.length)
    else
      match cs with
      | [] => [acc.reverse]
      | c :: cs' => splitGo sep fuel (c :: acc) cs'

/-- Python `s.split(sep)` for a non-empty separator (the only way the source
uses it): leftmost, non-overlapping occurrences. -/
def splitStr (s sep : String) : List String :=
  if sep.isEmpty then [s]
  else (splitGo sep.data (s.data.length + 1) [] s.data).map (fun cs => ⟨cs⟩)

/-- Python `sub in s` substring test. -/
def hasSub (s sub : String) : Bool := (splitStr s sub).length != 1

/-- Python `s.replace(old, new)` worker over character lists. -/
def replaceGo (pat rep : List Char) : Nat → List Char → List Char
  | 0, cs => cs
  | fuel + 1, cs =>
    if pat.isPrefixOf cs then
      match cs with
      | [] => rep
      | _ :: cs' => rep ++ replaceGo pat rep fuel (cs'.drop (pat.length - 1))
    else
      match cs with
      | [] => []
      | c :: cs' => c :: replaceGo pat rep fuel cs'

/-- Python `s.replace(old, new)` for a non-empty pattern (the only way the
source uses it). -/
def replaceStr (s pat rep : String) : String :=
  if pat.isEmpty then s
  else ⟨replaceGo pat.data rep.data (s.data.length + 1) s.data⟩

/-- Update-or-append on an insertion-ordered association list: Python
`d[k] = v` on a dict. -/
def setA {α : Type} : List (String × α) → String → α → List (String × α)
  | [], k, v => [(k, v)]
  | (k', v') :: rest, k, v =>
    if k' == k then (k, v) :: rest else (k', v') :: setA rest k v

/-- Python `set.add` on a set modelled as an insertion-ordered list. -/
def insertS (x : String) (s : List String) : List String :=
  if x ∈ s then s else s ++ [x]

/-- Boolean-expression trees over the grammar
`Identifier | Not(e) | And(e, ...) | Or(e, ...)`; `and`/`or` hold the flat
ordered operand list exactly like Python `ast.BoolOp.values`. -/
inductive BExpr where
  | name (n : String)
  | not (e : BExpr)
  | and (vs : List BExpr)
  | or (vs : List BExpr)

/-- The `Literal` dataclass of `flowchart.py`. -/
structure Literal where
  name : String
  is_positive : Bool
deriving DecidableEq

/-- `DNFConverter._distribute_and`: cartesian concatenation of two term
lists, outer loop over `terms1`, inner loop over `terms2`. -/
def distributeAnd (t1 t2 : List (List Literal)) : List (List Literal) :=
  (t1.map (fun a => t2.map (fun b => a ++ b))).flatten

/-- The per-term body of `DNFConverter._negate_dnf`: starting from the
singleton DNF of the first literal negated, repeatedly `_distribute_and`
with each remaining negated literal.  (On an empty term the Python code
raises `IndexError` on `term[0]`; such terms never arise from parsed input,
and the case is mapped to `[]` here.) -/
def negTermCode : List Literal → List (List Literal)
  | [] => []
  | l0 :: rest =>
    rest.foldl
      (fun res lit => distributeAnd res [[⟨lit.name, !lit.is_positive⟩]])
      [[⟨l0.name, !l0.is_positive⟩]]

/-- `DNFConverter._negate_dnf`: empty input gives `[]`, otherwise the
per-term results are concatenated (`negated_terms.extend(result)`). -/
def negateDnf (terms : List (List Literal)) : List (List Literal) :=
  if terms.isEmpty then [] else (terms.map negTermCode).flatten

mutual

/-- `DNFConverter.convert` (lines 29-49 of `flowchart.py`): `Name` and
`Not(Name)` become literal singletons, `Not` over anything else negates the
operand's DNF via `_negate_dnf`, `And` folds `_distribute_and` starting from
`[[]]`, `Or` concatenates. -/
def convert : BExpr → List (List Literal)
  | .name n => [[⟨n, true⟩]]
  | .not (.name n) => [[⟨n, false⟩]]
  | .not (.not e) => negateDnf (convert (.not e))
  | .not (.and vs) => negateDnf (convert (.and vs))
  | .not (.or vs) => negateDnf (convert (.or vs))
  | .and vs => convAnd vs [[]]
  | .or vs => convOr vs

/-- The `And` fold of `DNFConverter.convert`:
`result = self._distribute_and(result, self.convert(value))` over the
operand list, with accumulator starting at `[[]]`. -/
def convAnd : List BExpr → List (List Literal) → List (List Literal)
  | [], acc => acc
  | v :: vs, acc => convAnd vs (distributeAnd acc (convert v))

/-- The `Or` concatenation of `DNFConverter.convert`. -/
def convOr : List BExpr → List (List Literal)
  | [] => []
  | v :: vs => convert v ++ convOr vs

end

mutual

/-- Truth value of an expression under a total assignment (standard boolean
semantics; this is the specification side of the DNF-correctness claim). -/
def beval (σ : String → Bool) : BExpr → Bool
  | .name n => σ n
  | .not e => !(beval σ e)
  | .and vs => bevalAll σ vs
  | .or vs => bevalAny σ vs

/-- Conjunction of the truth values of a list of operands. -/
def bevalAll (σ : String → Bool) : List BExpr → Bool
  | [] => true
  | v :: vs => beval σ v && bevalAll σ vs

/-- Disjunction of the truth values of a list of operands. -/
def bevalAny (σ : String → Bool) : List BExpr → Bool
  | [] => false
  | v :: vs => beval σ v || bevalAny σ vs

end

/-- A literal holds under an assignment iff the variable's value equals the
literal's polarity. -/
def litSat (σ : String → Bool) (l : Literal) : Bool := σ l.name == l.is_positive

/-- A DNF term is satisfied when all its literals hold. -/
def termSat (σ : String → Bool) (t : List Literal) : Bool := t.all (litSat σ)

/-- A DNF is satisfied when at least one of its terms is satisfied. -/
def dnfSat (σ : String → Bool) (d : List (List Literal)) : Bool := d.any (termSat σ)

mutual

/-- `NegationNormalizer.normalize` (lines 14-26 of `flowchart.py`), in
state-passing form: the second component is the accumulated
`negated_nodes` set.  `not Name` is replaced by the bare name and recorded;
`not` over a `BoolOp` is handled through `normalizeNot` (see there); `not`
over another `not` falls through both `isinstance` tests and is returned
unchanged; `BoolOp` operands are normalized in order; names pass through. -/
def normalize : BExpr → List String → BExpr × List String
  | .name n, s => (.name n, s)
  | .not e, s => normalizeNot e s
  | .and vs, s =>
    let p := normalizeList vs s
    (.and p.1, p.2)
  | .or vs, s =>
    let p := normalizeList vs s
    (.or p.1, p.2)

/-- What `normalize` does to `Not(operand)`.  For a `BoolOp` operand the
Python code flips the operator, wraps every operand in `Not` and recurses on
the rewritten node, which is exactly `Or`/`And` of `normalizeNot` applied to
each original operand in order (`normalizeNotList`); this reformulation is
structurally recursive and pointwise equal to the source's rewriting. -/
def normalizeNot : BExpr → List String → BExpr × List String
  | .name n, s => (.name n, insertS n s)
  | .and vs, s =>
    let p := normalizeNotList vs s
    (.or p.1, p.2)
  | .or vs, s =>
    let p := normalizeNotList vs s
    (.and p.1, p.2)
  | .not e, s => (.not (.not e), s)

/-- Normalize `Not(v)` for each operand `v` in order, threading the set. -/
def normalizeNotList : List BExpr → List String → List BExpr × List String
  | [], s => ([], s)
  | v :: vs, s =>
    let a := normalizeNot v s
    let b := normalizeNotList vs a.2
    (a.1 :: b.1, b.2)

/-- Normalize each operand of a `BoolOp` in order, threading the set. -/
def normalizeList : List BExpr → List String → List BExpr × List String
  | [], s => ([], s)
  | v :: vs, s =>
    let a := normalize v s
    let b := normalizeList vs a.2
    (a.1 :: b.1, b.2)

end

/-- The mutable state of a `GraphBuilder` instance (constructor arguments
plus the accumulated `nodes`, `edges` and `node_count` of one build). -/
structure GB where
  questions : List (String × String)
  nodes : List String
  edges : List (String × String × String)
  node_count : List (String × Nat)
  split_map : List (String × List String)
  negated : List String

/-- A fresh `GraphBuilder(questions, split_map, negated_nodes)`. -/
def mkGB (questions : List (String × String)) (split_map : List (String × List String))
    (negated : List String) : GB :=
  ⟨questions, [], [], [], split_map, negated⟩

/-- Python `set.add` on the edge set. -/
def insertE (e : String × String × String) (es : List (String × String × String)) :
    List (String × String × String) :=
  if e ∈ es then es else es ++ [e]

/-- Whether any accumulated edge touches `n` as source or target — the
non-emptiness of `existing_edges` at line 200 of `flowchart.py`. -/
def touches (edges : List (String × String × String)) (n : String) : Bool :=
  edges.any (fun e => e.1 == n || e.2.2 == n)

/-- Node-identity assignment (lines 198-205): a first-ever use takes the
bare identifier (and enters the counter map at 0); a reuse whose bare id
already touches an edge mints `name_k` with the incremented counter; a
reuse with no touching edge reuses the bare id unchanged. -/
def mintNode (gb : GB) (name : String) : GB × String :=
  match List.lookup name gb.node_count with
  | some c =>
    if touches gb.edges name then
      ({ gb with node_count := setA gb.node_count name (c + 1) },
        name ++ "_" ++ toString (c + 1))
    else (gb, name)
  | none => ({ gb with node_count := setA gb.node_count name 0 }, name)

/-- One iteration of the `_add_term` loop (lines 197-220) for literal
`lit`: mint the node id, add it to the node set, compute `is_negated` from
the (possibly suffixed) current node id, emit the previous node's Yes/No
pair towards the current node or `Deny` by the XOR rule when there is a
previous node, and emit the current node's terminal Yes/No pair towards
`Approve`/`Deny` by the same XOR rule when this is the last literal
(`isLast` is `i == len(term) - 1`).  Returns the new state and the current
node id. -/
def addTermStep (gb : GB) (prev : Option (String × Bool)) (lit : Literal) (isLast : Bool) :
    GB × String :=
  let m := mintNode gb lit.name
  let curr := m.2
  let gb2 : GB := { m.1 with nodes := insertS curr m.1.nodes }
  let neg : Bool := gb2.negated.contains curr
  let gb3 : GB :=
    match prev with
    | none => gb2
    | some pp =>
      { gb2 with
        edges :=
          insertE (pp.1, "No", if pp.2 != neg then "Deny" else curr)
            (insertE (pp.1, "Yes", if pp.2 != neg then curr else "Deny") gb2.edges) }
  if isLast then
    ({ gb3 with
        edges :=
          insertE (curr, "No", if lit.is_positive != neg then "Deny" else "Approve")
            (insertE (curr, "Yes", if lit.is_positive != neg then "Approve" else "Deny")
              gb3.edges) }, curr)
  else (gb3, curr)

/-- The loop of `GraphBuilder._add_term`: the literals are processed in
order by `addTermStep`, threading the previous node id and the previous
literal's polarity. -/
def addTermGo (gb : GB) (prev : Option (String × Bool)) : List Literal → GB
  | [] => gb
  | lit :: rest =>
    let s := addTermStep gb prev lit rest.isEmpty
    addTermGo s.1 (some (s.2, lit.is_positive)) rest

/-- `GraphBuilder._add_term`: an empty term returns immediately, otherwise
the literal walk starts with no previous node. -/
def addTerm (gb : GB) (term : List Literal) : GB :=
  if term.isEmpty then gb else addTermGo gb none term

/-- The builder state after `_add_term` has been applied to every DNF term
in order, starting from a fresh `GraphBuilder`. -/
def buildGB (questions : List (String × String)) (split_map : List (String × List String))
    (negated : List String) (terms : List (List Literal)) : GB :=
  terms.foldl addTerm (mkGB questions split_map negated)

/-- The distinct Yes-successors of node `n` in the accumulated edge set
(the claim's "outgoing Yes edges" of `n`). -/
def yesTargets (edges : List (String × String × String)) (n : String) : List String :=
  (edges.filter (fun e => e.1 == n && e.2.1 == "Yes")).map (fun e => e.2.2)

/-- The distinct No-successors of node `n` in the accumulated edge set. -/
def noTargets (edges : List (String × String × String)) (n : String) : List String :=
  (edges.filter (fun e => e.1 == n && e.2.1 == "No")).map (fun e => e.2.2)

/-- The member-identifier collection of `LogicPreprocessor.find_or_groups`
(lines 88-93): a `Name` operand contributes its id, a `UnaryOp` whose
operand is a `Name` contributes that name, anything else is skipped. -/
def orTermsOf (vals : List BExpr) : List String :=
  vals.filterMap fun v =>
    match v with
    | .name id => some id
    | .not (.name id) => some id
    | _ => none

mutual

/-- `LogicPreprocessor.find_or_groups` (lines 79-98): at depth ≥ 4 or on a
non-`BoolOp` node the result is empty; only an `And` node is scanned, and
only its direct `Or` operands with a non-empty member collection contribute
a group `(or_terms, remaining_operands)`; every operand is recursed into at
depth + 1 right after its own group. -/
def find_or_groups (node : BExpr) (depth : Nat) : List (List String × List BExpr) :=
  if 4 ≤ depth then []
  else
    match node with
    | .and vs => fogVals [] vs depth
    | _ => []

/-- The operand loop of `find_or_groups` on an `And` node; `before` holds
the already-visited operands in reverse, so `before.reverse ++ rest` is
`node.values[:i] + node.values[i+1:]`. -/
def fogVals (before : List BExpr) (vals : List BExpr) (depth : Nat) :
    List (List String × List BExpr) :=
  match vals with
  | [] => []
  | val :: rest =>
    let here :=
      match val with
      | .or ovs =>
        let ts := orTermsOf ovs
        if ts.isEmpty then [] else [(ts, before.reverse ++ rest)]
      | _ => []
    here ++ find_or_groups val (depth + 1) ++ fogVals (val :: before) rest depth

end

/-- `data.get('logic', '')`. -/
def getLogic (data : List (String × String)) : String :=
  (List.lookup "logic" data).getD ""

/-- The textual `" and "`-separated segments of the logic string, reordered
so that every segment containing `" or "` comes first (lines 104-107 of
`flowchart.py`); the split is purely textual and ignores parentheses. -/
def reorderParts (logic : String) : List String :=
  let parts := splitStr logic " and "
  parts.filter (fun p => hasSub p " or ") ++ parts.filter (fun p => !hasSub p " or ")

/-- The reordered logic text: `' and '.join(or_parts + other_parts)`. -/
def reorderLogic (logic : String) : String :=
  String.intercalate " and " (reorderParts logic)

/-- The loop body over `or_groups` in `LogicPreprocessor.preprocess`
(lines 114-120): allocate `V<i>` in order, record the split map entry,
synthesize the composite question from the original question map (members
missing from it are skipped), and textually replace `"(m1 or m2 or ...)"`
by the virtual id in the logic string. -/
def ppFold (questions : List (String × String)) :
    List (List String × List BExpr) → Nat → List (String × String) → String →
      List (String × List String) →
      List (String × String) × String × List (String × List String)
  | [], _, qAcc, logicAcc, sAcc => (qAcc, logicAcc, sAcc)
  | (ts, _) :: rest, i, qAcc, logicAcc, sAcc =>
    let virt := "V" ++ toString i
    let sAcc' := setA sAcc virt ts
    let desc := String.intercalate " OR " (ts.filterMap (fun t => List.lookup t questions))
    let qAcc' := setA qAcc virt ("Does patient meet either:\n" ++ desc ++ "?")
    let oldPart := "(" ++ String.intercalate " or " ts ++ ")"
    ppFold questions rest (i + 1) qAcc' (replaceStr logicAcc oldPart virt) sAcc'

/-- `LogicPreprocessor.preprocess` (lines 100-123) on a fresh instance,
parameterized by the external text-to-AST parser (`ast.parse` is not part
of this repository): the `" and "` segments are reordered, the result is
parsed, and when parsing fails (the `except:` path) or no OR-group is
found, the original document and an empty split map are returned;
otherwise the groups are folded into new questions, a rewritten logic
string and the split map, and the new document is the new questions with
`logic` appended. -/
def preprocess (parse : String → Option BExpr) (data : List (String × String)) :
    List (String × String) × List (String × List String) :=
  let questions := data.filter (fun kv => !(kv.1 == "logic"))
  let logic := reorderLogic (getLogic data)
  match parse logic with
  | none => (data, [])
  | some node =>
    let gs := find_or_groups node 0
    if gs.isEmpty then (data, [])
    else
      let r := ppFold questions gs 1 questions logic []
      (r.1 ++ [("logic", r.2.1)], r.2.2)

/-!
A concrete boolean-expression parser.  Text-to-AST parsing is external to
the repository (`ast.parse`), so claims about concrete logic *texts* need a
model of it.  Modelled from the spec: "a conventional expression parser"
over the grammar `Identifier | Not(expr) | And(...) | Or(...)` with
precedence `not` > `and` > `or` and explicit parenthesization, producing
flat operand lists like Python's `ast.BoolOp`.
-/

/-- Tokens of the boolean-expression language. -/
inductive Tok where
  | lp
  | rp
  | tand
  | tor
  | tnot
  | id (s : String)
deriving DecidableEq

/-- Turn an accumulated identifier (reversed) into a token, if non-empty. -/
def flushTok (acc : List Char) : List Tok :=
  match acc.reverse with
  | [] => []
  | cs =>
    let w : String := ⟨cs⟩
    if w == "and" then [.tand]
    else if w == "or" then [.tor]
    else if w == "not" then [.tnot]
    else [.id w]

/-- Lexer: parentheses are single tokens, spaces separate, everything else
accumulates into identifiers/keywords. -/
def lexGo : List Char → List Char → List Tok
  | acc, [] => flushTok acc
  | acc, c :: cs =>
    if c == '(' then flushTok acc ++ [.lp] ++ lexGo [] cs
    else if c == ')' then flushTok acc ++ [.rp] ++ lexGo [] cs
    else if c == ' ' then flushTok acc ++ lexGo [] cs
    else lexGo (c :: acc) cs

/-- Tokenize a logic string. -/
def lexLogic (s : String) : List Tok := lexGo [] s.data

mutual

/-- Parse an `or`-level expression: `and`-level operands separated by `or`,
collected flat. -/
def parseOrE : Nat → List Tok → Option (BExpr × List Tok)
  | 0, _ => none
  | fuel + 1, ts => do
    let (e, ts') ← parseAndE fuel ts
    let (es, ts'') ← parseOrRest fuel ts'
    pure (if es.isEmpty then e else .or (e :: es), ts'')

/-- Zero or more `or <and-level>` continuations. -/
def parseOrRest : Nat → List Tok → Option (List BExpr × List Tok)
  | 0, _ => none
  | fuel + 1, .tor :: ts => do
    let (e, ts') ← parseAndE fuel ts
    let (es, ts'') ← parseOrRest fuel ts'
    pure (e :: es, ts'')
  | _ + 1, ts => pure ([], ts)

/-- Parse an `and`-level expression: `not`-level operands separated by
`and`, collected flat. -/
def parseAndE : Nat → List Tok → Option (BExpr × List Tok)
  | 0, _ => none
  | fuel + 1, ts => do
    let (e, ts') ← parseNotE fuel ts
    let (es, ts'') ← parseAndRest fuel ts'
    pure (if es.isEmpty then e else .and (e :: es), ts'')

/-- Zero or more `and <not-level>` continuations. -/
def parseAndRest : Nat → List Tok → Option (List BExpr × List Tok)
  | 0, _ => none
  | fuel + 1, .tand :: ts => do
    let (e, ts') ← parseNotE fuel ts
    let (es, ts'') ← parseAndRest fuel ts'
    pure (e :: es, ts'')
  | _ + 1, ts => pure ([], ts)

/-- Parse a `not`-level expression: `not` prefixes, a parenthesized
expression, or an identifier. -/
def parseNotE : Nat → List Tok → Option (BExpr × List Tok)
  | 0, _ => none
  | fuel + 1, .tnot :: ts => do
    let (e, ts') ← parseNotE fuel ts
    pure (.not e, ts')
  | fuel + 1, .lp :: ts => do
    let (e, ts') ← parseOrE fuel ts
    match ts' with
    | .rp :: ts'' => pure (e, ts'')
    | _ => none
  | _ + 1, .id s :: ts => pure (.name s, ts)
  | _ + 1, _ => none

end

/-- Modelled from the spec: the external text-to-AST parser (`ast.parse`,
excluded from the repository), as a conventional recursive-descent parser
over the spec's grammar; returns `none` exactly where Python would raise a
`SyntaxError`. -/
def myParse (s : String) : Option BExpr :=
  let ts := lexLogic s
  match parseOrE (3 * ts.length + 3) ts with
  | some (e, []) => some e
  | _ => none

/-- `node.split('_')[0]`: the text before the first underscore of a node
id — the "base" identifier the renderers use for question lookup and for
DAG edge keys. -/
def baseName (n : String) : String := (splitStr n "_").headD ""

/-- `self.questions.get(k, k)`. -/
def qget (questions : List (String × String)) (k : String) : String :=
  (List.lookup k questions).getD k

/-- A node-declaration line `id["display text"]` as emitted at lines
143-145: the display text is the question looked up by the base name,
falling back to the base name itself. -/
def nodeDecl (questions : List (String × String)) (n : String) : String :=
  n ++ "[\"" ++ qget questions (baseName n) ++ "\"]"

/-- An edge line `src -->|label| tgt` (line 161). -/
def edgeLine (e : String × String × String) : String :=
  e.1 ++ " \x2d\x2d>|" ++ e.2.1 ++ "| " ++ e.2.2

/-- The `Start` fan-out lines for one first-literal id (lines 149-158): an
id in the split map is expanded into its member sub-decision, anything else
gets a plain `Start --> id` line. -/
def fanLines (questions : List (String × String)) (split_map : List (String × List String))
    (start_q : String) : List String :=
  match List.lookup start_q split_map with
  | some members =>
    (start_q ++ "[\"" ++ qget questions start_q ++ "\"]") ::
      (members.map (fun q =>
        [ "Start \x2d\x2d> " ++ q,
          q ++ "[\"" ++ qget questions q ++ "\"]",
          q ++ " \x2d\x2d>|Yes| " ++ start_q,
          q ++ " \x2d\x2d>|No| Deny" ])).flatten
  | none => ["Start \x2d\x2d> " ++ start_q]

/-- The three fixed leading lines of `build_mermaid` (lines 135-139). -/
def mermaidHeader : List String :=
  [ "%%\x7binit: \x7b\x27flowchart\x27: \x7b\x27rankSpacing\x27: 25, \x27nodeSpacing\x27: 50, \x27padding\x27: 5\x7d\x7d\x7d%%",
    "flowchart TD",
    "Start[\"Start\"]" ]

/-- The fixed styling lines of `build_mermaid` (lines 163-172). -/
def mermaidTrailer : List String :=
  [ "classDef default fill:#f0f0f0,stroke:#333,stroke-width:1px,color:black",
    "classDef start fill:#FFA500,stroke:#333,color:white",
    "classDef approval fill:#4CAF50,stroke:#333,color:white",
    "classDef rejection fill:#DC143C,stroke:#333,color:white",
    "class Start start",
    "class Approve approval",
    "class Deny rejection",
    "linkStyle default stroke:#333,stroke-width:2px" ]

/-- The line list of `build_mermaid`, parameterized by the enumeration
order of the builder's node set (`for node in self.nodes`), of the
first-literal set (`for start_q in start_questions`) and of the edge set
(`for src, cond, tgt in self.edges`) — CPython iterates these sets in hash
order, which this embedding leaves as an explicit parameter. -/
def mermaidCore (questions : List (String × String)) (split_map : List (String × List String))
    (nodesE startE : List String) (edgesE : List (String × String × String)) : List String :=
  mermaidHeader
    ++ nodesE.map (nodeDecl questions)
    ++ ["Approve[\"Yes\"]", "Deny[\"No\"]"]
    ++ startE.flatMap (fanLines questions split_map)
    ++ edgesE.map edgeLine
    ++ mermaidTrailer

/-- Insertion-ordered deduplication — one concrete enumeration of a Python
set built by successive insertion. -/
def dedupIns (xs : List String) : List String :=
  xs.foldl (fun acc x => insertS x acc) []

/-- `set(term[0].name for term in terms)` (line 140/177), enumerated in
insertion order.  (Python raises `IndexError` on an empty term; empty terms
are skipped here and never arise from parsed input.) -/
def firstNames (terms : List (List Literal)) : List String :=
  dedupIns (terms.filterMap (fun t => t.head?.map Literal.name))

/-- `GraphBuilder.build_mermaid` on a fresh builder, with the three set
enumerations instantiated to their insertion orders. -/
def mermaidLines (questions : List (String × String)) (split_map : List (String × List String))
    (negated : List String) (terms : List (List Literal)) : List String :=
  let gb := buildGB questions split_map negated terms
  mermaidCore questions split_map gb.nodes (firstNames terms) gb.edges

/-- The joined mermaid text (`"\n".join(lines)`). -/
def buildMermaid (questions : List (String × String)) (split_map : List (String × List String))
    (negated : List String) (terms : List (List Literal)) : String :=
  String.intercalate "\n" (mermaidLines questions split_map negated terms)

/-- The structured document of `GraphBuilder.build_dag` (line 176). -/
structure DagDoc where
  nodes : List (String × String)
  edges : List (String × List (String × List String))
  terminal_nodes : List (String × String)
deriving DecidableEq

/-- One step of the edge loop at lines 185-190: nested dict update keyed by
the *base* source id, storing the singleton `[base_tgt]` under the label —
last writer wins per `(base_src, label)`. -/
def dagEdgeFold (acc : List (String × List (String × List String)))
    (e : String × String × String) : List (String × List (String × List String)) :=
  let bsrc := baseName e.1
  let btgt := baseName e.2.2
  match List.lookup bsrc acc with
  | none => acc ++ [(bsrc, [(e.2.1, [btgt])])]
  | some m => setA acc bsrc (setA m e.2.1 [btgt])

/-- `GraphBuilder.build_dag` (lines 175-191) on a builder state `gb`:
`nodes` gets `Start` and then an entry per node of `gb.nodes` — which is
the node set *before* the `_add_term` loop below runs — keyed by base name;
then every term is added, the `Start` fan-out list is recorded, and the
accumulated edges are folded into the nested edge map. -/
def buildDagDoc (gb : GB) (terms : List (List Literal)) : DagDoc :=
  let nodes0 := setA [] "Start" "Decision Point"
  let nodes1 := gb.nodes.foldl
    (fun acc node => setA acc (baseName node) (qget gb.questions (baseName node))) nodes0
  let gb' := terms.foldl addTerm gb
  let edges0 := setA [] "Start" [("Start", firstNames terms)]
  let edges1 := gb'.edges.foldl dagEdgeFold edges0
  ⟨nodes1, edges1, [("Approve", "Yes"), ("Deny", "No")]⟩

/-- `build_dag` on a fresh builder, as called from `build_graph`. -/
def buildDag (questions : List (String × String)) (split_map : List (String × List String))
    (negated : List String) (terms : List (List Literal)) : DagDoc :=
  buildDagDoc (mkGB questions split_map negated) terms

/-- The shared front of `build_graph` (lines 222-231): preprocess, read the
(possibly rewritten) logic and questions, parse — a parse failure here is
the fatal `SyntaxError` path, hence `none` — then normalize and convert,
returning everything the two renderers need. -/
def pipelineFront (parse : String → Option BExpr) (data : List (String × String)) :
    Option ((List (String × String)) × (List (String × List String)) × (List String)
      × List (List Literal)) :=
  let pr := preprocess parse data
  let questions := pr.1.filter (fun kv => !(kv.1 == "logic"))
  match parse (getLogic pr.1) with
  | none => none
  | some node =>
    let np := normalize node []
    some (questions, pr.2, np.2, convert np.1)

/-- `build_graph(data, use_dag=False)`: the mermaid line list. -/
def compileMermaidLines (parse : String → Option BExpr) (data : List (String × String)) :
    Option (List String) :=
  (pipelineFront parse data).map (fun r => mermaidLines r.1 r.2.1 r.2.2.1 r.2.2.2)

/-- `build_graph(data, use_dag=True)`: the structured DAG document. -/
def compileDag (parse : String → Option BExpr) (data : List (String × String)) :
    Option DagDoc :=
  (pipelineFront parse data).map (fun r => buildDag r.1 r.2.1 r.2.2.1 r.2.2.2)

/-- Node `n` has at least one outgoing Yes edge and at least one outgoing
No edge in the edge set `E`. -/
def HasBoth (E : List (String × String × String)) (n : String) : Prop :=
  (∃ t, (n, "Yes", t) ∈ E) ∧ (∃ t, (n, "No", t) ∈ E)

mutual

/-- Trees on which `normalize` is the identity and records nothing:
names, `not` over `not` (both `isinstance` tests fail, the node is returned
untouched), and `and`/`or` of such trees. -/
def inertB : BExpr → Bool
  | .name _ => true
  | .not (.not _) => true
  | .not _ => false
  | .and vs => inertListB vs
  | .or vs => inertListB vs

/-- All members of the list are inert. -/
def inertListB : List BExpr → Bool
  | [] => true
  | v :: vs => inertB v && inertListB vs

end

mutual

/-- The claim's notion of "already normalized": no `not` is applied to a
compound (`and`/`or`) subtree anywhere in the tree. -/
def noNotOverCompound : BExpr → Bool
  | .name _ => true
  | .not (.and _) => false
  | .not (.or _) => false
  | .not e => noNotOverCompound e
  | .and vs => noNotListB vs
  | .or vs => noNotListB vs

/-- `noNotOverCompound` over the operand list. -/
def noNotListB : List BExpr → Bool
  | [] => true
  | v :: vs => noNotOverCompound v && noNotListB vs

end

/-! ### Helper lemmas about the builder state -/

theorem mem_insertE_of_mem {e' e : String × String × String} {es} (h : e ∈ es) :
    e ∈ insertE e' es := by
  unfold insertE
  split
  · exact h
  · exact List.mem_append_left _ h

theorem mem_insertE_self (e : String × String × String) (es) : e ∈ insertE e es := by
  unfold insertE
  split
  · assumption
  · exact List.mem_append_right _ (List.mem_singleton.mpr rfl)

theorem mem_insertS {x a : String} {s : List String} :
    x ∈ insertS a s ↔ x = a ∨ x ∈ s := by
  unfold insertS
  split
  · constructor
    · exact fun h => Or.inr h
    · rintro (rfl | h) <;> assumption
  · simp [List.mem_append, or_comm]

theorem mintNode_edges (gb : GB) (k : String) : (mintNode gb k).1.edges = gb.edges := by
  unfold mintNode
  cases List.lookup k gb.node_count with
  | none => rfl
  | some c =>
    dsimp only
    split <;> rfl

theorem mintNode_negated (gb : GB) (k : String) : (mintNode gb k).1.negated = gb.negated := by
  unfold mintNode
  cases List.lookup k gb.node_count with
  | none => rfl
  | some c =>
    dsimp only
    split <;> rfl

theorem mintNode_nodes (gb : GB) (k : String) : (mintNode gb k).1.nodes = gb.nodes := by
  unfold mintNode
  cases List.lookup k gb.node_count with
  | none => rfl
  | some c =>
    dsimp only
    split <;> rfl

theorem addTermStep_curr (gb : GB) (prev : Option (String × Bool)) (lit : Literal)
    (isLast : Bool) : (addTermStep gb prev lit isLast).2 = (mintNode gb lit.name).2 := by
  unfold addTermStep
  cases prev <;> cases isLast <;> simp

theorem addTermStep_nodes (gb : GB) (prev : Option (String × Bool)) (lit : Literal)
    (isLast : Bool) :
    (addTermStep gb prev lit isLast).1.nodes = insertS (mintNode gb lit.name).2 gb.nodes := by
  unfold addTermStep
  cases prev <;> cases isLast <;> simp [mintNode_nodes]

theorem addTermStep_edges_mono (gb : GB) (prev : Option (String × Bool)) (lit : Literal)
    (isLast : Bool) {e} (h : e ∈ gb.edges) : e ∈ (addTermStep gb prev lit isLast).1.edges := by
  unfold addTermStep
  cases prev <;> cases isLast <;> simp only [] <;>
    first
      | (apply mem_insertE_of_mem; apply mem_insertE_of_mem;
          first
            | simpa [mintNode_edges] using h
            | (apply mem_insertE_of_mem; apply mem_insertE_of_mem; simpa [mintNode_edges] using h))
      | simpa [mintNode_edges] using h

theorem addTermStep_prev_edges (gb : GB) (p : String) (b : Bool) (lit : Literal)
    (isLast : Bool) :
    ((p, "Yes",
        if b != gb.negated.contains (mintNode gb lit.name).2 then (mintNode gb lit.name).2
        else "Deny") ∈ (addTermStep gb (some (p, b)) lit isLast).1.edges) ∧
    ((p, "No",
        if b != gb.negated.contains (mintNode gb lit.name).2 then "Deny"
        else (mintNode gb lit.name).2) ∈ (addTermStep gb (some (p, b)) lit isLast).1.edges) := by
  unfold addTermStep
  cases isLast <;>
    simp only [mintNode_negated] <;>
    exact ⟨by first
            | exact mem_insertE_of_mem (mem_insertE_self _ _)
            | exact mem_insertE_of_mem (mem_insertE_of_mem (mem_insertE_of_mem (mem_insertE_self _ _))),
          by first
            | exact mem_insertE_self _ _
            | exact mem_insertE_of_mem (mem_insertE_of_mem (mem_insertE_self _ _))⟩

theorem addTermStep_last_edges (gb : GB) (prev : Option (String × Bool)) (lit : Literal) :
    (((mintNode gb lit.name).2, "Yes",
        if lit.is_positive != gb.negated.contains (mintNode gb lit.name).2 then "Approve"
        else "Deny") ∈ (addTermStep gb prev lit true).1.edges) ∧
    (((mintNode gb lit.name).2, "No",
        if lit.is_positive != gb.negated.contains (mintNode gb lit.name).2 then "Deny"
        else "Approve") ∈ (addTermStep gb prev lit true).1.edges) := by
  unfold addTermStep
  cases prev <;>
    simp only [mintNode_negated] <;>
    exact ⟨mem_insertE_of_mem (mem_insertE_self _ _), mem_insertE_self _ _⟩

theorem addTermGo_edges_mono (term : List Literal) :
    ∀ (gb : GB) (prev : Option (String × Bool)) {e}, e ∈ gb.edges →
      e ∈ (addTermGo gb prev term).edges := by
  induction term with
  | nil => exact fun _ _ _ h => h
  | cons lit rest ih =>
    intro gb prev e h
    exact ih _ _ (addTermStep_edges_mono gb prev lit rest.isEmpty h)

theorem HasBoth_mono {E E' : List (String × String × String)}
    (hsub : ∀ e ∈ E, e ∈ E') {n} (h : HasBoth E n) : HasBoth E' n :=
  ⟨h.1.elim fun t ht => ⟨t, hsub _ ht⟩, h.2.elim fun t ht => ⟨t, hsub _ ht⟩⟩

theorem addTermGo_inv (term : List Literal) :
    ∀ (gb : GB) (prev : Option (String × Bool)),
      (∀ n ∈ gb.nodes, HasBoth gb.edges n ∨ (term ≠ [] ∧ ∃ b, prev = some (n, b))) →
      ∀ n ∈ (addTermGo gb prev term).nodes, HasBoth (addTermGo gb prev term).edges n := by
  induction term with
  | nil =>
    intro gb prev H n hn
    rcases H n hn with h | ⟨hne, _⟩
    · exact h
    · exact absurd rfl hne
  | cons lit rest ih =>
    intro gb prev H n hn
    refine ih _ _ ?_ n hn
    intro n' hn'
    rw [addTermStep_nodes, mem_insertS] at hn'
    rcases hn' with rfl | hn'
    · by_cases hr : rest = []
      · subst hr
        left
        have hlast := addTermStep_last_edges gb prev lit
        exact ⟨⟨_, hlast.1⟩, ⟨_, hlast.2⟩⟩
      · exact Or.inr ⟨hr, lit.is_positive, by rw [addTermStep_curr]⟩
    · rcases H n' hn' with h | ⟨_, b, rfl⟩
      · left
        exact HasBoth_mono (fun e he => addTermStep_edges_mono gb prev lit rest.isEmpty he) h
      · left
        have hp := addTermStep_prev_edges gb n' b lit rest.isEmpty
        exact ⟨⟨_, hp.1⟩, ⟨_, hp.2⟩⟩

theorem addTerm_inv (gb : GB) (term : List Literal)
    (H : ∀ n ∈ gb.nodes, HasBoth gb.edges n) :
    ∀ n ∈ (addTerm gb term).nodes, HasBoth (addTerm gb term).edges n := by
  unfold addTerm
  split
  · exact H
  · exact addTermGo_inv term gb none fun n hn => Or.inl (H n hn)

theorem foldl_addTerm_inv (terms : List (List Literal)) :
    ∀ (gb : GB), (∀ n ∈ gb.nodes, HasBoth gb.edges n) →
      ∀ n ∈ (terms.foldl addTerm gb).nodes, HasBoth (terms.foldl addTerm gb).edges n := by
  induction terms with
  | nil => exact fun gb H => H
  | cons t ts ih =>
    intro gb H
    exact ih (addTerm gb t) (addTerm_inv gb t H)

/-! ### Helper lemmas about the normalizer -/

mutual

theorem inert_normalize : ∀ (e : BExpr), inertB e = true → ∀ s, normalize e s = (e, s)
  | .name _, _, _ => rfl
  | .not (.not _), _, _ => rfl
  | .not (.name _), h, _ => by simp [inertB] at h
  | .not (.and _), h, _ => by simp [inertB] at h
  | .not (.or _), h, _ => by simp [inertB] at h
  | .and vs, h, s => by
    have hl := inert_normalizeList vs (by simpa [inertB] using h) s
    simp [normalize, hl]
  | .or vs, h, s => by
    have hl := inert_normalizeList vs (by simpa [inertB] using h) s
    simp [normalize, hl]

theorem inert_normalizeList : ∀ (vs : List BExpr), inertListB vs = true → ∀ s,
    normalizeList vs s = (vs, s)
  | [], _, _ => rfl
  | v :: vs, h, s => by
    have h' : inertB v = true ∧ inertListB vs = true := by simpa [inertListB] using h
    simp [normalizeList, inert_normalize v h'.1 s, inert_normalizeList vs h'.2 s]

end

mutual

theorem inert_output : ∀ (e : BExpr) (s : List String), inertB (normalize e s).1 = true
  | .name _, _ => rfl
  | .not e, s => inert_outputNot e s
  | .and vs, s => by simpa [normalize, inertB] using inert_outputList vs s
  | .or vs, s => by simpa [normalize, inertB] using inert_outputList vs s

theorem inert_outputNot : ∀ (e : BExpr) (s : List String), inertB (normalizeNot e s).1 = true
  | .name _, _ => rfl
  | .not _, _ => rfl
  | .and vs, s => by simpa [normalizeNot, inertB] using inert_outputNotList vs s
  | .or vs, s => by simpa [normalizeNot, inertB] using inert_outputNotList vs s

theorem inert_outputNotList : ∀ (vs : List BExpr) (s : List String),
    inertListB (normalizeNotList vs s).1 = true
  | [], _ => rfl
  | v :: vs, s => by
    simp only [normalizeNotList, inertListB, Bool.and_eq_true]
    exact ⟨inert_outputNot v s, inert_outputNotList vs _⟩

theorem inert_outputList : ∀ (vs : List BExpr) (s : List String),
    inertListB (normalizeList vs s).1 = true
  | [], _ => rfl
  | v :: vs, s => by
    simp only [normalizeList, inertListB, Bool.and_eq_true]
    exact ⟨inert_output v s, inert_outputList vs _⟩

end

/-! ### A generic pairwise helper -/

theorem pairwise_filter_first {p : String → Bool} (parts : List String) :
    List.Pairwise (fun a b => p b = true → p a = true)
      (parts.filter p ++ parts.filter (fun x => !p x)) := by
  rw [List.pairwise_append]
  refine ⟨?_, ?_, ?_⟩
  · exact List.pairwise_of_forall_mem_list fun a ha _ _ _ => (List.mem_filter.mp ha).2
  · refine List.pairwise_of_forall_mem_list fun a _ b hb hpb => ?_
    have := (List.mem_filter.mp hb).2
    simp [hpb] at this
  · exact fun a ha b _ _ => (List.mem_filter.mp ha).2

/-! ### The claims -/

/-- C1 (code_bug): DNF correctness fails on `not`-over-compound input.  For
the expression `Not(And(Q1, Or(Q2, Q3)))` (a `not`-over-`and`-over-`or`
nesting of depth 3) and the assignment `Q1 := true, Q2 := false,
Q3 := false`, the expression evaluates to `true` but no term of
`DNFConverter.convert`'s output is satisfied: `_negate_dnf` conjoins the
negated literals of each term (producing `[[¬Q1, ¬Q2], [¬Q1, ¬Q3]]`)
instead of distributing the negated literals across terms as a cartesian
product, so the claimed iff does not hold. -/
theorem c1_dnf_negation_bug :
    beval (fun s => s == "Q1") (.not (.and [.name "Q1", .or [.name "Q2", .name "Q3"]])) = true ∧
    dnfSat (fun s => s == "Q1")
      (convert (.not (.and [.name "Q1", .or [.name "Q2", .name "Q3"]]))) = false ∧
    convert (.not (.and [.name "Q1", .or [.name "Q2", .name "Q3"]])) =
      [[⟨"Q1", false⟩, ⟨"Q2", false⟩], [⟨"Q1", false⟩, ⟨"Q3", false⟩]] := by
  decide

/-- C2 (counterexample): for the DNF term list `[[A, A]]` (arising from
the logic `"A and A"`), the bare node id `A` is reused at the second
position — its first occurrence had no touching edge yet — and `A` ends up
with two distinct outgoing Yes edges (`A -Yes-> A` and
`A -Yes-> Approve`), so "exactly one outgoing Yes edge" is false. -/
theorem c2_counterexample :
    "A" ∈ (buildGB [] [] [] [[⟨"A", true⟩, ⟨"A", true⟩]]).nodes ∧
    yesTargets (buildGB [] [] [] [[⟨"A", true⟩, ⟨"A", true⟩]]).edges "A" = ["A", "Approve"] ∧
    (yesTargets (buildGB [] [] [] [[⟨"A", true⟩, ⟨"A", true⟩]]).edges "A").length ≠ 1 := by
  decide

/-- C2 (amended): in every `DecisionGraph` produced by `GraphBuilder` from
a list of DNF terms, every non-sentinel node (every member of the builder's
node set) has *at least* one outgoing Yes edge and at least one outgoing No
edge in the accumulated edge set. -/
theorem c2_binary_node_amended (questions : List (String × String))
    (split_map : List (String × List String)) (negated : List String)
    (terms : List (List Literal)) (n : String)
    (hn : n ∈ (buildGB questions split_map negated terms).nodes) :
    HasBoth (buildGB questions split_map negated terms).edges n := by
  exact foldl_addTerm_inv terms (mkGB questions split_map negated) (by intro x hx; cases hx) n hn

/-- C2 (witness): the amended invariant evaluated on the one-term DNF
`[[Q1]]`. -/
theorem c2_witness :
    "Q1" ∈ (buildGB [] [] [] [[⟨"Q1", true⟩]]).nodes ∧
    HasBoth (buildGB [] [] [] [[⟨"Q1", true⟩]]).edges "Q1" :=
  ⟨by decide, c2_binary_node_amended [] [] [] [[⟨"Q1", true⟩]] "Q1" (by decide)⟩

/-- C3 (code_bug): `build_dag` populates its `nodes` mapping *before* the
`_add_term` loop runs, so on the fresh builder used by `build_graph` the
mapping only ever contains `Start -> "Decision Point"`; for the terms
`[[Q1]]` with question map `{Q1: "a?"}` the node `Q1` is created in the
graph but has no entry in the document's `nodes`. -/
theorem c3_dag_nodes_bug :
    (buildDag [("Q1", "a?")] [] [] [[⟨"Q1", true⟩]]).nodes = [("Start", "Decision Point")] ∧
    List.lookup "Q1" (buildDag [("Q1", "a?")] [] [] [[⟨"Q1", true⟩]]).nodes = none ∧
    "Q1" ∈ (buildGB [("Q1", "a?")] [] [] [[⟨"Q1", true⟩]]).nodes := by
  decide

/-- C4 (counterexample): with `negated_names = {A}` and terms
`[[A], [A]]`, the second term's node is disambiguated to `A_1`; its
underlying identifier `A` is in `negated_names`, so the claim's rule
(polarity `true` XOR `is_negated true` = `false`) predicts
`A_1 -Yes-> Deny` — but the code tests the *suffixed* id `A_1` against
`negated_names`, gets `false`, and emits `A_1 -Yes-> Approve`. -/
theorem c4_counterexample :
    "A_1" ∈ (buildGB [] [] ["A"] [[⟨"A", true⟩], [⟨"A", true⟩]]).nodes ∧
    baseName "A_1" = "A" ∧
    (buildGB [] [] ["A"] [[⟨"A", true⟩], [⟨"A", true⟩]]).negated.contains (baseName "A_1") = true ∧
    ("A_1", "Yes", "Approve") ∈ (buildGB [] [] ["A"] [[⟨"A", true⟩], [⟨"A", true⟩]]).edges ∧
    ("A_1", "Yes", "Deny") ∉ (buildGB [] [] ["A"] [[⟨"A", true⟩], [⟨"A", true⟩]]).edges := by
  decide

/-- C4 (amended): during chain construction, with `is_negated` true iff the
current node's *full (possibly suffixed) node id* is in `negated_names`,
the edges emitted from the previous node send Yes to the current node and
No to Deny exactly when the previous literal's polarity differs from
`is_negated`, and otherwise swap; and when the current literal is the last
one of the term, the same XOR between that literal's own polarity and its
own `is_negated` decides whether Yes/No lead to Approve/Deny or the
reverse.  Stated for an arbitrary builder state. -/
theorem c4_xor_amended (gb : GB) (p : String) (b : Bool) (lit : Literal)
    (rest : List Literal) :
    ((p, "Yes",
        if b != gb.negated.contains (mintNode gb lit.name).2 then (mintNode gb lit.name).2
        else "Deny") ∈ (addTermGo gb (some (p, b)) (lit :: rest)).edges) ∧
    ((p, "No",
        if b != gb.negated.contains (mintNode gb lit.name).2 then "Deny"
        else (mintNode gb lit.name).2) ∈ (addTermGo gb (some (p, b)) (lit :: rest)).edges) ∧
    (rest = [] →
      (((mintNode gb lit.name).2, "Yes",
          if lit.is_positive != gb.negated.contains (mintNode gb lit.name).2 then "Approve"
          else "Deny") ∈ (addTermGo gb (some (p, b)) (lit :: rest)).edges) ∧
      (((mintNode gb lit.name).2, "No",
          if lit.is_positive != gb.negated.contains (mintNode gb lit.name).2 then "Deny"
          else "Approve") ∈ (addTermGo gb (some (p, b)) (lit :: rest)).edges)) := by
  have hprev := addTermStep_prev_edges gb p b lit rest.isEmpty
  simp only [addTermGo]
  refine ⟨addTermGo_edges_mono rest _ _ hprev.1, addTermGo_edges_mono rest _ _ hprev.2, ?_⟩
  rintro rfl
  have hlast := addTermStep_last_edges gb (some (p, b)) lit
  exact ⟨hlast.1, hlast.2⟩

/-- C4 (witness): the amended rule applied at a concrete state in which the
current node is the disambiguated `A_1` of a negated identifier `A`: the
full-id test makes `is_negated` false, so Yes goes to the current node and
the terminal Yes goes to Approve. -/
theorem c4_witness :
    (("P", "Yes",
        if true != (buildGB [] [] ["A"] [[⟨"A", true⟩]]).negated.contains
            (mintNode (buildGB [] [] ["A"] [[⟨"A", true⟩]]) "A").2 then
          (mintNode (buildGB [] [] ["A"] [[⟨"A", true⟩]]) "A").2
        else "Deny") ∈
      (addTermGo (buildGB [] [] ["A"] [[⟨"A", true⟩]]) (some ("P", true)) [⟨"A", true⟩]).edges) ∧
    (((mintNode (buildGB [] [] ["A"] [[⟨"A", true⟩]]) "A").2, "Yes",
        if true != (buildGB [] [] ["A"] [[⟨"A", true⟩]]).negated.contains
            (mintNode (buildGB [] [] ["A"] [[⟨"A", true⟩]]) "A").2 then "Approve"
        else "Deny") ∈
      (addTermGo (buildGB [] [] ["A"] [[⟨"A", true⟩]]) (some ("P", true)) [⟨"A", true⟩]).edges) := by
  have h := c4_xor_amended (buildGB [] [] ["A"] [[⟨"A", true⟩]]) "P" true ⟨"A", true⟩ []
  exact ⟨h.1, (h.2.2 rfl).1⟩

/-- C5 (confirmed): for every input document and every behaviour of the
external parser, if the parse of the reordered logic fails (the bare
`except:` path) or succeeds with no recognized OR-group, then
`LogicPreprocessor.preprocess` returns the original, unmodified input
document together with an empty factor-group map; the embedding is a total
function, mirroring that no exception escapes the pass. -/
theorem c5_factoring_fallback (parse : String → Option BExpr)
    (data : List (String × String))
    (h : ∀ node, parse (reorderLogic (getLogic data)) = some node →
      find_or_groups node 0 = []) :
    preprocess parse data = (data, []) := by
  unfold preprocess
  cases hp : parse (reorderLogic (getLogic data)) with
  | none => simp [hp]
  | some node => simp [hp, h node hp]

/-- C5 (witness): the fallback evaluated with a parser that always fails. -/
theorem c5_witness :
    preprocess (fun _ => none) [("logic", "Q1")] = ([("logic", "Q1")], []) :=
  c5_factoring_fallback (fun _ => none) [("logic", "Q1")] (fun _ h => nomatch h)

/-- C6 (confirmed, parser modelled from the spec): for the document with
logic `"Q1 and (Q2 or Q3)"`, preprocessing produces the synthetic `V1` with
factor group `[Q2, Q3]` and compiled logic `"V1 and Q1"`; the diagram
output expands `Start --> Q2 --> V1` and `Start --> Q3 --> V1` with each
member's No edge to Deny and no direct `Start --> V1` line, and `V1`
continues the chain into `Q1`; the DAG output performs no such expansion:
`Start` fans out to `V1` alone, `V1`'s own Yes/No edges continue the chain,
and `Q2`/`Q3` appear nowhere in it. -/
theorem c6_scenario4 :
    (preprocess myParse
        [("Q1", "a?"), ("Q2", "b?"), ("Q3", "c?"), ("logic", "Q1 and (Q2 or Q3)")]).2 =
      [("V1", ["Q2", "Q3"])] ∧
    getLogic (preprocess myParse
        [("Q1", "a?"), ("Q2", "b?"), ("Q3", "c?"), ("logic", "Q1 and (Q2 or Q3)")]).1 =
      "V1 and Q1" ∧
    ((compileMermaidLines myParse
          [("Q1", "a?"), ("Q2", "b?"), ("Q3", "c?"), ("logic", "Q1 and (Q2 or Q3)")]).isSome
        = true ∧
      "Start \x2d\x2d> Q2" ∈ (compileMermaidLines myParse
          [("Q1", "a?"), ("Q2", "b?"), ("Q3", "c?"), ("logic", "Q1 and (Q2 or Q3)")]).getD [] ∧
      "Q2 \x2d\x2d>|Yes| V1" ∈ (compileMermaidLines myParse
          [("Q1", "a?"), ("Q2", "b?"), ("Q3", "c?"), ("logic", "Q1 and (Q2 or Q3)")]).getD [] ∧
      "Q2 \x2d\x2d>|No| Deny" ∈ (compileMermaidLines myParse
          [("Q1", "a?"), ("Q2", "b?"), ("Q3", "c?"), ("logic", "Q1 and (Q2 or Q3)")]).getD [] ∧
      "Start \x2d\x2d> Q3" ∈ (compileMermaidLines myParse
          [("Q1", "a?"), ("Q2", "b?"), ("Q3", "c?"), ("logic", "Q1 and (Q2 or Q3)")]).getD [] ∧
      "Q3 \x2d\x2d>|Yes| V1" ∈ (compileMermaidLines myParse
          [("Q1", "a?"), ("Q2", "b?"), ("Q3", "c?"), ("logic", "Q1 and (Q2 or Q3)")]).getD [] ∧
      "Q3 \x2d\x2d>|No| Deny" ∈ (compileMermaidLines myParse
          [("Q1", "a?"), ("Q2", "b?"), ("Q3", "c?"), ("logic", "Q1 and (Q2 or Q3)")]).getD [] ∧
      "V1 \x2d\x2d>|Yes| Q1" ∈ (compileMermaidLines myParse
          [("Q1", "a?"), ("Q2", "b?"), ("Q3", "c?"), ("logic", "Q1 and (Q2 or Q3)")]).getD [] ∧
      "Start \x2d\x2d> V1" ∉ (compileMermaidLines myParse
          [("Q1", "a?"), ("Q2", "b?"), ("Q3", "c?"), ("logic", "Q1 and (Q2 or Q3)")]).getD []) ∧
    compileDag myParse
        [("Q1", "a?"), ("Q2", "b?"), ("Q3", "c?"), ("logic", "Q1 and (Q2 or Q3)")] =
      some
        ⟨[("Start", "Decision Point")],
          [("Start", [("Start", ["V1"])]),
            ("V1", [("Yes", ["Q1"]), ("No", ["Deny"])]),
            ("Q1", [("Yes", ["Approve"]), ("No", ["Deny"])])],
          [("Approve", "Yes"), ("Deny", "No")]⟩ := by
  decide

/-- C7 (counterexample): the tree `Not(Q1)` contains no `not` over a
compound subtree, so it is "already normalized" in the claim's sense, yet
`normalize` rewrites it to `Q1` (not a no-op on the tree shape) and adds
`Q1` to the negated set. -/
theorem c7_counterexample :
    noNotOverCompound (.not (.name "Q1")) = true ∧
    normalize (.not (.name "Q1")) [] = (.name "Q1", ["Q1"]) ∧
    ((BExpr.name "Q1") ≠ .not (.name "Q1")) ∧ (["Q1"] ≠ ([] : List String)) :=
  ⟨rfl, rfl, fun h => BExpr.noConfusion h, by simp⟩

/-- C7 (amended): normalization is idempotent as a state transformer — for
every tree and accumulated set, re-running `normalize` on the result tree
with the result set is a no-op on both the tree and the `negated_names`
set. -/
theorem c7_idempotent_amended (e : BExpr) (s : List String) :
    normalize (normalize e s).1 (normalize e s).2 = normalize e s :=
  inert_normalize _ (inert_output e s) _

set_option maxRecDepth 100000 in
/-- C8 (counterexample): the mermaid text is *not* a function of the input
document alone.  For the input `{Q1: "a?", Q2: "b?", logic: "Q1 or Q2"}`
(DNF `[[Q1], [Q2]]`), the `Start` fan-out set is `{Q1, Q2}`; enumerating it
as `[Q1, Q2]` and as `[Q2, Q1]` — both orders CPython's hash-randomized
set iteration can produce in different runs — yields different output
bytes. -/
theorem c8_counterexample :
    firstNames [[(⟨"Q1", true⟩ : Literal)], [⟨"Q2", true⟩]] = ["Q1", "Q2"] ∧
    List.Perm ["Q2", "Q1"] (firstNames [[(⟨"Q1", true⟩ : Literal)], [⟨"Q2", true⟩]]) ∧
    String.intercalate "\n"
        (mermaidCore [("Q1", "a?"), ("Q2", "b?")] []
          (buildGB [("Q1", "a?"), ("Q2", "b?")] [] [] [[⟨"Q1", true⟩], [⟨"Q2", true⟩]]).nodes
          ["Q1", "Q2"]
          (buildGB [("Q1", "a?"), ("Q2", "b?")] [] [] [[⟨"Q1", true⟩], [⟨"Q2", true⟩]]).edges) ≠
      String.intercalate "\n"
        (mermaidCore [("Q1", "a?"), ("Q2", "b?")] []
          (buildGB [("Q1", "a?"), ("Q2", "b?")] [] [] [[⟨"Q1", true⟩], [⟨"Q2", true⟩]]).nodes
          ["Q2", "Q1"]
          (buildGB [("Q1", "a?"), ("Q2", "b?")] [] [] [[⟨"Q1", true⟩], [⟨"Q2", true⟩]]).edges) := by
  decide

/-- C8 (amended): with identical input *and identical internal
set-iteration order* the emitted text is identical (the pipeline is a pure
function of document and enumerations); across runs that differ only in
set-iteration order, the multiset of emitted lines is unchanged — only
their order varies. -/
theorem c8_order_amended (questions : List (String × String))
    (split_map : List (String × List String)) {nE nE' sE sE' : List String}
    {eE eE' : List (String × String × String)}
    (h1 : nE.Perm nE') (h2 : sE.Perm sE') (h3 : eE.Perm eE') :
    (mermaidCore questions split_map nE sE eE).Perm
      (mermaidCore questions split_map nE' sE' eE') := by
  unfold mermaidCore
  exact ((((List.Perm.refl mermaidHeader).append (h1.map _)).append (List.Perm.refl _)).append
      (h2.flatMap_right _) |>.append (h3.map _)).append (List.Perm.refl mermaidTrailer)

/-- C8 (witness): the amended statement applied with a swapped node
enumeration. -/
theorem c8_witness :
    (mermaidCore [("Q1", "a?"), ("Q2", "b?")] [] ["Q1", "Q2"] ["Q1", "Q2"] []).Perm
      (mermaidCore [("Q1", "a?"), ("Q2", "b?")] [] ["Q2", "Q1"] ["Q1", "Q2"] []) :=
  c8_order_amended [("Q1", "a?"), ("Q2", "b?")] [] (List.Perm.swap "Q2" "Q1" [])
    (List.Perm.refl _) (List.Perm.refl _)

/-- C9 (counterexample): the "base identifier" is not 'the node id with any
disambiguation suffix stripped' — the code truncates at the *first*
underscore (`node.split('_')[0]`).  For the identifier `A_B` (no
disambiguation suffix) with question map `{A_B: "q?"}`, the claim predicts
the declaration `A_B["q?"]`, but the emitted diagram declares `A_B["A"]`
(lookup of `"A"`, absent, falling back to `"A"`). -/
theorem c9_counterexample :
    ("A_B[\"A\"]" ∈ mermaidLines [("A_B", "q?")] [] [] [[⟨"A_B", true⟩]]) ∧
    ("A_B[\"q?\"]" ∉ mermaidLines [("A_B", "q?")] [] [] [[⟨"A_B", true⟩]]) := by
  decide

/-- C9 (amended): every graph node's display text is obtained by looking up
the question map with the text of its node id before the first underscore
(`node.split('_')[0]`; for identifiers without underscores this is the node
id with any disambiguation suffix stripped), and an identifier absent from
the question map is not an error — the node renders with that truncated
name as display text. -/
theorem c9_display_amended (questions : List (String × String))
    (split_map : List (String × List String)) (negated : List String)
    (terms : List (List Literal)) (n : String)
    (hn : n ∈ (buildGB questions split_map negated terms).nodes) :
    (n ++ "[\"" ++ ((List.lookup (baseName n) questions).getD (baseName n)) ++ "\"]") ∈
      mermaidLines questions split_map negated terms := by
  unfold mermaidLines mermaidCore
  refine List.mem_append_left _ (List.mem_append_left _ (List.mem_append_left _
    (List.mem_append_left _ (List.mem_append_right _ ?_))))
  exact List.mem_map_of_mem (nodeDecl questions) hn

/-- C9 (witness): the amended statement evaluated on the one-term DNF
`[[Q1]]` with `{Q1: "a?"}`. -/
theorem c9_witness :
    "Q1" ∈ (buildGB [("Q1", "a?")] [] [] [[⟨"Q1", true⟩]]).nodes ∧
    ("Q1" ++ "[\"" ++ ((List.lookup (baseName "Q1") [("Q1", "a?")]).getD (baseName "Q1")) ++ "\"]") ∈
      mermaidLines [("Q1", "a?")] [] [] [[⟨"Q1", true⟩]] :=
  ⟨by decide, c9_display_amended [("Q1", "a?")] [] [] [[⟨"Q1", true⟩]] "Q1" (by decide)⟩

/-- C10 (counterexample): the reordering pass is *not* a reordering of the
top-level `" and "`-joined clauses — it splits the text at every `" and "`
occurrence, including inside parentheses.  For the logic
`"A and (B or (C and D))"`, whose top-level clauses are `A` and
`(B or (C and D))`, a top-level reordering could only produce the original
text or `"(B or (C and D)) and A"`; the code instead produces
`"(B or (C and A and D))"`, and the whole preprocess consequently finds no
factor group and returns the input unchanged. -/
theorem c10_counterexample :
    reorderLogic "A and (B or (C and D))" = "(B or (C and A and D))" ∧
    "(B or (C and A and D))" ≠ "A and (B or (C and D))" ∧
    "(B or (C and A and D))" ≠ "(B or (C and D)) and A" ∧
    preprocess myParse
        [("A", "a?"), ("B", "b?"), ("C", "c?"), ("D", "d?"),
          ("logic", "A and (B or (C and D))")] =
      ([("A", "a?"), ("B", "b?"), ("C", "c?"), ("D", "d?"),
          ("logic", "A and (B or (C and D))")], []) := by
  decide

/-- C10 (amended): before parsing and factoring, the preprocessor reorders
the *textual* `" and "`-separated segments of the logic string (a split
that ignores parentheses) so that every segment containing `" or "`
precedes every segment that does not — the reordered segment list is a
permutation of the split segments with all `" or "`-containing segments
first; for `"Q1 and (Q2 or Q3)"` the segments coincide with the top-level
clauses and the compiled logic becomes `"(Q2 or Q3) and Q1"`, then
`"V1 and Q1"` after factoring, so the question-chain order in the output
can differ from the input's textual clause order. -/
theorem c10_reorder_amended :
    (∀ logic : String,
      (reorderParts logic).Perm (splitStr logic " and ") ∧
        List.Pairwise (fun a b => hasSub b " or " = true → hasSub a " or " = true)
          (reorderParts logic)) ∧
    reorderLogic "Q1 and (Q2 or Q3)" = "(Q2 or Q3) and Q1" ∧
    getLogic (preprocess myParse
        [("Q1", "a?"), ("Q2", "b?"), ("Q3", "c?"), ("logic", "Q1 and (Q2 or Q3)")]).1 =
      "V1 and Q1" := by
  refine ⟨fun logic => ⟨?_, ?_⟩, by decide, by decide⟩
  · exact List.filter_append_perm _ _
  · exact pairwise_filter_first _

end Flowchart
